import Mathlib

/-!
# Verification of the Specify7 API demo taxon importer

A shallow embedding of the taxon-import script (`main.py`,
`taxon_helpers.py`, `session.py`).  The remote Specify data store is
modelled as an explicit list of serialized `Taxon` records together with a
fresh-id counter; every mutating REST call (`create_resource`,
`update_resource`) is recorded in a trace so that claims about which API
calls a code path issues can be stated.  Pure GET queries
(`fetch_collection` filtered by name / definitionitem / parent name) are
modelled as filters over that store, exactly as the Django backend would
evaluate the query string that `get_taxon` builds.
-/

namespace SpDemo

/-- The literal rank names of the CSV columns (`RANK_NAME` in
`taxon_helpers.py`). -/
inductive RankName where
  | Order
  | Family
  | Genus
  | Species
deriving DecidableEq, Repr

/-- A serialized `taxontreedefitem` record, with the fields this code
reads: its id, its `rankid`, the tree definition it belongs to, its rank
name and its `resource_uri`. -/
structure DefItem where
  id : Nat
  rankid : Nat
  treedef : Nat
  name : String
  resource_uri : String
deriving DecidableEq, Repr

/-- A serialized `Taxon` record with the fields this code reads or
writes.  `defItemId` is the id of the `definitionitem` foreign key (the
backend derives it from the `definitionitem` resource uri); the filter
`definitionitem={id}` in `get_taxon` matches against it.  `parent` is the
resource uri of the parent record, or `none`. -/
structure Taxon where
  id : Nat
  name : String
  author : Option String
  isaccepted : Bool
  acceptedtaxon : Option String
  ishybrid : Bool
  rankid : Nat
  version : Nat
  remarks : String
  definition : String
  definitionitem : String
  defItemId : Nat
  parent : Option String
  resource_uri : String
deriving DecidableEq, Repr

/-- The payload of a `create_resource("taxon", taxon_data)` call: the
`taxon_data` dictionary built in `get_or_create_taxon` (and in the
accepted-taxon creation helper).  The backend assigns `id` and
`resource_uri`. -/
structure TaxonPayload where
  name : String
  author : Option String
  acceptedtaxon : Option String
  isaccepted : Bool
  ishybrid : Bool
  rankid : Nat
  version : Nat
  remarks : String
  definition : String
  definitionitem : String
  defItemId : Nat
  parent : Option String
deriving DecidableEq, Repr

/-- The `updated` dictionary of a `update_resource('taxon', id, updated)`
call.  The code only ever puts the keys `author`, `isaccepted` and
`acceptedtaxon` in it; a field that is `none` here is absent from the
dictionary and hence untouched by the PUT merge. -/
structure TaxonUpdate where
  author : Option String
  isaccepted : Option Bool
  acceptedtaxon : Option (Option String)
deriving DecidableEq, Repr

/-- One mutating API call, as recorded in the trace. -/
inductive ApiCall where
  | create (payload : TaxonPayload)
  | update (id : Nat) (fields : TaxonUpdate)
deriving DecidableEq, Repr

/-- The state of the remote store: the taxon records, the next id the
backend will assign, and the trace of mutating calls issued so far. -/
structure St where
  taxa : List Taxon
  nextId : Nat
  trace : List ApiCall
deriving DecidableEq, Repr

/-- Python's `str.lower()` on the ascii table names this code uses
(written structurally over the character list so it evaluates inside
proofs). -/
def strToLower (s : String) : String :=
  ⟨s.data.map Char.toLower⟩

/-- `construct_api_link` from `session.py`:
`f"/api/specify/{table.lower()}/{id}/"`. -/
def construct_api_link (table : String) (id : Nat) : String :=
  "/api/specify/" ++ strToLower table ++ "/" ++ toString id ++ "/"

/-- The fetched tree globals of `main.py` (`MAMMALIA`, `TREE_DEF_ID`,
`DEF_ITEMS`), which the `tree_info_fetched` decorator guarantees are
populated before any of the row-processing functions run. -/
structure TreeInfo where
  mammalia : Taxon
  treeDefId : Nat
  defItems : RankName → DefItem

/-- One CSV row, after `deserialize_csv` (the `Row` TypedDict). -/
structure Row where
  order : String
  family : String
  genus : String
  species : String
  isAccepted : String
  author : String
  acceptedGenus : String
  acceptedSpecies : String
  acceptedAuthor : String
deriving DecidableEq, Repr

/-- `row[rank_name]`: the cell of the row at a rank column. -/
def Row.field (row : Row) : RankName → String
  | RankName.Order => row.order
  | RankName.Family => row.family
  | RankName.Genus => row.genus
  | RankName.Species => row.species

/-- Resolution of the `parent__name` filter: the name of the record the
`parent` uri of `t` points at, or `none` when `t` has no parent or the
uri dangles. -/
def parentNameOf (st : St) (t : Taxon) : Option String :=
  t.parent.bind fun u =>
    (st.taxa.find? fun p => p.resource_uri == u).map fun p => p.name

/-- The predicate the query string of `get_taxon` expresses:
`name={name}&definitionitem={id}` plus, when present,
`&parent__name={parent_name}`. -/
def taxonMatches (st : St) (name : String) (defItemId : Nat)
    (parentName : Option String) (t : Taxon) : Bool :=
  t.name == name && t.defItemId == defItemId &&
    match parentName with
    | none => true
    | some p => parentNameOf st t == some p

/-- The collection the backend returns for the query of `get_taxon`. -/
def matchingTaxa (st : St) (name : String) (defItemId : Nat)
    (parentName : Option String) : List Taxon :=
  st.taxa.filter (taxonMatches st name defItemId parentName)

/-- `get_taxon` from `taxon_helpers.py`: fetch the collection for the
query and return its first record, or `None` when it is empty. -/
def get_taxon (st : St) (name : String) (defItemId : Nat)
    (parentName : Option String) : Option Taxon :=
  (matchingTaxa st name defItemId parentName).head?

/-- `session.create_resource("taxon", payload)`: the backend assigns the
next id and the corresponding resource uri, appends the record, and
returns it.  The call is recorded in the trace. -/
def create_resource (st : St) (payload : TaxonPayload) : St × Taxon :=
  let newTaxon : Taxon :=
    { id := st.nextId
      name := payload.name
      author := payload.author
      isaccepted := payload.isaccepted
      acceptedtaxon := payload.acceptedtaxon
      ishybrid := payload.ishybrid
      rankid := payload.rankid
      version := payload.version
      remarks := payload.remarks
      definition := payload.definition
      definitionitem := payload.definitionitem
      defItemId := payload.defItemId
      parent := payload.parent
      resource_uri := construct_api_link "taxon" st.nextId }
  ({ taxa := st.taxa ++ [newTaxon]
     nextId := st.nextId + 1
     trace := st.trace ++ [ApiCall.create payload] },
   newTaxon)

/-- The stored record with a given id (`fetch_resource('taxon', i)`). -/
def recordAt (st : St) (i : Nat) : Option Taxon :=
  st.taxa.find? fun r => r.id == i

/-- The PUT merge of `update_resource`: keys present in the update
dictionary overwrite the fetched record, all other fields keep their
stored values. -/
def applyUpdate (t : Taxon) (u : TaxonUpdate) : Taxon :=
  { t with
    author := match u.author with
              | none => t.author
              | some a => some a
    isaccepted := u.isaccepted.getD t.isaccepted
    acceptedtaxon := u.acceptedtaxon.getD t.acceptedtaxon }

/-- `session.update_resource('taxon', taxon["id"], u)`: fetch the current
record, merge the update into it, PUT the merged record (replacing the
stored one) and return it.  In the verified flows the fetched id is
always present in the store; a missing id would raise in Python, here the
passed record stands in so the function stays total. -/
def update_resource_taxon (st : St) (taxon : Taxon) (u : TaxonUpdate) :
    St × Taxon :=
  let current := (recordAt st taxon.id).getD taxon
  ({ st with
     taxa := st.taxa.map fun r =>
       if r.id == taxon.id then applyUpdate r u else r
     trace := st.trace ++ [ApiCall.update taxon.id u] },
   applyUpdate current u)

/-- `update_author` from `taxon_helpers.py`: no call at all when the
stored author already matches, otherwise a one-key update. -/
def update_author (st : St) (taxon : Taxon) (author : String) :
    St × Taxon :=
  if taxon.author = some author then (st, taxon)
  else update_resource_taxon st taxon
    { author := some author, isaccepted := none, acceptedtaxon := none }

/-- Modelled from the spec: `create_accepted_taxon` is imported by
`main.py` from `taxon_helpers` but its body is not among the source
files.  Per the spec ("idempotently fetching-or-creating each node", "a
taxon may point to a separate accepted taxon instead of being accepted
itself") and its call sites, it creates an accepted taxon record —
`isaccepted` true, no `acceptedtaxon` — at the given tree-definition
item, with the given name, optional author, and parent (the parent field
is the parent record's resource uri, or `none` when no parent record was
passed), using the same constant payload fields as the create in
`get_or_create_taxon`. -/
def create_accepted_taxon (ti : TreeInfo) (st : St) (def_item : DefItem)
    (name : String) (parent : Option Taxon) (author : Option String) :
    St × Taxon :=
  create_resource st
    { name := name
      author := author
      acceptedtaxon := none
      isaccepted := true
      ishybrid := false
      rankid := def_item.rankid
      version := 0
      remarks := "Generated in Demo"
      definition := construct_api_link "taxontreedef" ti.treeDefId
      definitionitem := def_item.resource_uri
      defItemId := def_item.id
      parent := parent.map fun p => p.resource_uri }

/-- `get_accepted` from `main.py`. -/
def get_accepted (ti : TreeInfo) (st : St) (row : Row) :
    St × Option String :=
  if row.isAccepted = "Yes" then (st, none)
  else
    match get_taxon st row.acceptedSpecies
        (ti.defItems RankName.Species).id (some row.acceptedGenus) with
    | some accepted =>
        let upd := update_author st accepted row.acceptedAuthor
        (upd.1, some upd.2.resource_uri)
    | none =>
        let stGenus : St × Taxon :=
          match get_taxon st row.acceptedGenus
              (ti.defItems RankName.Genus).id none with
          | some g => (st, g)
          | none =>
              let parent := get_taxon st "Uploaded"
                (ti.defItems RankName.Family).id (some "Uploaded")
              create_accepted_taxon ti st (ti.defItems RankName.Genus)
                row.acceptedGenus parent none
        let sp := create_accepted_taxon ti stGenus.1
          (ti.defItems RankName.Species) row.acceptedSpecies
          (some stGenus.2) (some row.acceptedAuthor)
        (sp.1, some sp.2.resource_uri)

/-- `synonymize_taxon` from `main.py`. -/
def synonymize_taxon (ti : TreeInfo) (st : St) (row : Row)
    (taxon : Taxon) : St × Taxon :=
  let acc := get_accepted ti st row
  update_resource_taxon acc.1 taxon
    { author := none, isaccepted := some false, acceptedtaxon := some acc.2 }

/-- `get_or_create_taxon` from `main.py`. -/
def get_or_create_taxon (ti : TreeInfo) (st : St) (row : Row)
    (rank_name : RankName) (parent_taxon : Taxon) : St × Taxon :=
  let rank := ti.defItems rank_name
  let isAcc : Bool :=
    decide (row.isAccepted = "Yes" ∧ rank_name = RankName.Species)
  let author : Option String :=
    if rank_name = RankName.Species then some row.author else none
  match get_taxon st (row.field rank_name) rank.id
      (some parent_taxon.name) with
  | some taxon =>
      let stTaxon :=
        if rank_name = RankName.Species ∧ taxon.isaccepted = true ∧
            isAcc = false
        then synonymize_taxon ti st row taxon
        else (st, taxon)
      match author with
      | none => stTaxon
      | some a => update_author stTaxon.1 stTaxon.2 a
  | none =>
      let stAcc : St × Option String :=
        if rank_name = RankName.Species then get_accepted ti st row
        else (st, none)
      create_resource stAcc.1
        { name := row.field rank_name
          author := author
          acceptedtaxon := stAcc.2
          isaccepted := isAcc
          ishybrid := false
          rankid := rank.rankid
          version := 0
          remarks := "Generated in Demo"
          definition := construct_api_link "taxontreedef" ti.treeDefId
          definitionitem := rank.resource_uri
          defItemId := rank.id
          parent := some parent_taxon.resource_uri }

/-- The fixed iteration order of `DEF_ITEMS.keys()` (dict insertion
order in `main.py`). -/
def rankOrder : List RankName :=
  [RankName.Order, RankName.Family, RankName.Genus, RankName.Species]

/-- `proccess_row` from `main.py`: walk the ranks in `DEF_ITEMS` order,
each fetched-or-created taxon becoming the parent for the next rank,
starting from `MAMMALIA`; return the id of the last (Species) taxon. -/
def proccess_row (ti : TreeInfo) (st : St) (row : Row) : St × Nat :=
  let r := rankOrder.foldl
    (fun acc rank =>
      let next := get_or_create_taxon ti acc.1 row rank acc.2
      (next.1, next.2))
    (st, ti.mammalia)
  (r.1, r.2.id)

/-- Number of `create_resource` calls in a trace. -/
def countCreates (l : List ApiCall) : Nat :=
  (l.filter fun c =>
    match c with
    | ApiCall.create _ => true
    | ApiCall.update _ _ => false).length

/-- Number of `update_resource` calls in a trace. -/
def countUpdates (l : List ApiCall) : Nat :=
  (l.filter fun c =>
    match c with
    | ApiCall.create _ => false
    | ApiCall.update _ _ => true).length

/-!
## Pagination model (claim about first-page lookups)

The backend serves the matching collection one page at a time;
`fetch_collection` returns the `objects` of the single page the built
query asks for, which is the first one (no `offset` parameter is ever
put in the query string).  `get_taxon` and `get_defitem` then index
`[0]`.
-/

/-- `get_taxon` as executed against a backend whose first page holds at
most `limit` records. -/
def get_taxon_paged (limit : Nat) (st : St) (name : String)
    (defItemId : Nat) (parentName : Option String) : Option Taxon :=
  ((matchingTaxa st name defItemId parentName).take limit).head?

/-- The collection the backend returns for the query of `get_defitem`:
`name={rank_name}&treedef={tree_def_id}`. -/
def matchingDefItems (items : List DefItem) (treeDefId : Nat)
    (rankName : String) : List DefItem :=
  items.filter fun d => d.name == rankName && d.treedef == treeDefId

/-- `get_defitem` from `taxon_helpers.py`: first record of the fetched
collection, or the raised exception message when it is empty. -/
def get_defitem (items : List DefItem) (treeDefId : Nat)
    (rankName : String) : Except String DefItem :=
  match matchingDefItems items treeDefId rankName with
  | [] => Except.error ("No taxontreedefitems with name " ++ rankName)
  | d :: _ => Except.ok d

/-- `get_defitem` as executed against a backend whose first page holds at
most `limit` records. -/
def get_defitem_paged (limit : Nat) (items : List DefItem)
    (treeDefId : Nat) (rankName : String) : Except String DefItem :=
  match (matchingDefItems items treeDefId rankName).take limit with
  | [] => Except.error ("No taxontreedefitems with name " ++ rankName)
  | d :: _ => Except.ok d

/-!
## Session layer (`session.py`): HTTP status handling

Each wrapper inspects the status code of the response(s) it receives and
either raises one of the four exception classes or returns the parsed
body.  The responses themselves come from the network, so they are
parameters here.
-/

/-- An HTTP response as the wrappers see it: status code and body. -/
structure HttpResponse where
  status : Nat
  content : String
deriving DecidableEq, Repr

/-- The exceptions `session.py` defines, plus the bare `Exception`
fallbacks it raises on other unexpected statuses. -/
inductive ApiErr where
  | invalidMethod (method : String)
  | invalidCredentials (content : String)
  | noPermission (content : String)
  | versionMismatch (content : String)
  | otherError (status : Nat) (content : String)
deriving DecidableEq, Repr

/-- `Session.send_request`: look the lowercased method name up on the
`requests` session object; no callable attribute of that name means
`InvalidMethod`, otherwise the found function handles the request. -/
def send_request (methods : String → Option (String → HttpResponse))
    (method : String) (endpoint : String) : Except ApiErr HttpResponse :=
  match methods method.toLower with
  | none => Except.error (ApiErr.invalidMethod method)
  | some f => Except.ok (f endpoint)

/-- The status checks of `Session.login` on the PUT `/context/login/`
response. -/
def login_check (r : HttpResponse) : Except ApiErr Unit :=
  if r.status = 403 then Except.error (ApiErr.invalidCredentials r.content)
  else if r.status = 400 then Except.error (ApiErr.otherError r.status r.content)
  else Except.ok ()

/-- The status checks of `Session.fetch_resource` on its GET response. -/
def fetch_resource_check (r : HttpResponse) : Except ApiErr String :=
  if r.status = 403 then Except.error (ApiErr.noPermission r.content)
  else if r.status ≠ 200 then Except.error (ApiErr.otherError r.status r.content)
  else Except.ok r.content

/-- The status checks of `Session.fetch_collection` on its GET response. -/
def fetch_collection_check (r : HttpResponse) : Except ApiErr String :=
  if r.status = 403 then Except.error (ApiErr.noPermission r.content)
  else if r.status ≠ 200 then Except.error (ApiErr.otherError r.status r.content)
  else Except.ok r.content

/-- The status checks of `Session.create_resource` on its POST response. -/
def create_resource_check (r : HttpResponse) : Except ApiErr String :=
  if r.status = 403 then Except.error (ApiErr.noPermission r.content)
  else if r.status ≠ 201 then Except.error (ApiErr.otherError r.status r.content)
  else Except.ok r.content

/-- `Session.update_resource`, status-wise: it first fetches the current
record (with `fetch_resource`'s checks), then checks the PUT response:
400 means the version was missing, 409 is a `VersionMismatch`, any other
non-200 status a bare `Exception`. -/
def update_resource_checks (getResp putResp : HttpResponse) :
    Except ApiErr String :=
  match fetch_resource_check getResp with
  | Except.error e => Except.error e
  | Except.ok _ =>
      if putResp.status = 400 then
        Except.error (ApiErr.otherError 400 putResp.content)
      else if putResp.status = 409 then
        Except.error (ApiErr.versionMismatch putResp.content)
      else if putResp.status ≠ 200 then
        Except.error (ApiErr.otherError putResp.status putResp.content)
      else Except.ok putResp.content

/-- Did the computation raise `InvalidCredentials`? -/
def isInvalidCredentials {α : Type} : Except ApiErr α → Bool
  | Except.error (ApiErr.invalidCredentials _) => true
  | _ => false

/-- Did the computation raise `NoPermission`? -/
def isNoPermission {α : Type} : Except ApiErr α → Bool
  | Except.error (ApiErr.noPermission _) => true
  | _ => false

/-- Did the computation raise `VersionMismatch`? -/
def isVersionMismatch {α : Type} : Except ApiErr α → Bool
  | Except.error (ApiErr.versionMismatch _) => true
  | _ => false

/-- Did the computation raise `InvalidMethod`? -/
def isInvalidMethod {α : Type} : Except ApiErr α → Bool
  | Except.error (ApiErr.invalidMethod _) => true
  | _ => false

/-!
## The record merge of `update_resource` (`session.py` lines 281-284)

`update_resource` fetches the full current record as a JSON dictionary,
runs Python's `dict.update(updated)` on it, and PUTs the merged
dictionary.  A serialized record is an association list of field names
to values; `dict.update` overwrites the values of keys present in
`updated` (keeping their position) and appends genuinely new keys.
-/

/-- Key lookup in a JSON dictionary rendered as an association list. -/
def dictLookup {α : Type} (k : String) : List (String × α) → Option α
  | [] => none
  | kv :: tl => if k == kv.1 then some kv.2 else dictLookup k tl

/-- Python's `current.update(updated)` on JSON dictionaries: keys present
in `updated` overwrite in place, genuinely new keys are appended. -/
def dictUpdate {α : Type} (current updated : List (String × α)) :
    List (String × α) :=
  (current.map fun kv =>
    match dictLookup kv.1 updated with
    | some v => (kv.1, v)
    | none => kv)
  ++ updated.filter fun kv => (dictLookup kv.1 current).isNone

/-- The JSON body `update_resource` PUTs for resource `rid` of a store:
the fetched record merged with the update dictionary. -/
def update_resource_body {α : Type} (store : Nat → List (String × α))
    (rid : Nat) (updated : List (String × α)) : List (String × α) :=
  dictUpdate (store rid) updated

/-!
## Predicates used in the statements

`StepData f created pre post` says that the store evolved from `pre` to
`post` by rewriting each stored record with `f` — which never touches a
record's id, name, uris, definition item or parent, and never turns a
synonym back into an accepted taxon — and appending freshly created
records whose ids are at least `pre.nextId`.  Every operation of the
importer evolves the store this way.
-/

/-- A record rewrite that keeps identity and tree position, and never
flips `isaccepted` from false to true. -/
def keylike (f : Taxon → Taxon) : Prop :=
  ∀ r, (f r).id = r.id ∧ (f r).name = r.name ∧
    (f r).resource_uri = r.resource_uri ∧ (f r).defItemId = r.defItemId ∧
    (f r).parent = r.parent ∧ ((f r).isaccepted = true → r.isaccepted = true)

/-- Store evolution data: `post`'s records are `pre`'s rewritten by `f`
followed by the freshly created ones. -/
def StepData (f : Taxon → Taxon) (created : List Taxon) (pre post : St) :
    Prop :=
  post.taxa = pre.taxa.map f ++ created ∧ keylike f ∧
    (∀ c ∈ created, pre.nextId ≤ c.id) ∧ pre.nextId ≤ post.nextId

/-- The store evolved by some keylike rewrite plus fresh creations. -/
def SimW (pre post : St) : Prop :=
  ∃ f created, StepData f created pre post

/-- The rewrite a `update_resource('taxon', i, u)` call performs on the
store. -/
def updFn (i : Nat) (u : TaxonUpdate) : Taxon → Taxon :=
  fun r => if r.id == i then applyUpdate r u else r

/-- Every stored record's parent uri resolves within the store. -/
def closedParents (st : St) : Bool :=
  st.taxa.all fun r =>
    match r.parent with
    | none => true
    | some u => st.taxa.any fun p => p.resource_uri == u

/-- No two stored records share an id. -/
def idsNodup (st : St) : Prop :=
  (st.taxa.map Taxon.id).Nodup

instance decIdsNodup (st : St) : Decidable (idsNodup st) := by
  unfold idsNodup
  infer_instance

/-- The data-model invariant of the spec: a taxon is either accepted
(`isaccepted` true, no `acceptedtaxon`) or points to exactly one
accepted taxon (`isaccepted` false, `acceptedtaxon` a single uri). -/
def payloadOk (p : TaxonPayload) : Prop :=
  (p.isaccepted = true ∧ p.acceptedtaxon = none) ∨
    (p.isaccepted = false ∧ p.acceptedtaxon ≠ none)

instance decPayloadOk : DecidablePred payloadOk := fun p => by
  unfold payloadOk
  infer_instance

/-- Decidable form of `payloadOk` for whole traces: every create payload
in the trace satisfies the data-model invariant. -/
def tracePayloadsOk (l : List ApiCall) : Bool :=
  l.all fun c =>
    match c with
    | ApiCall.create p => decide (payloadOk p)
    | ApiCall.update _ _ => true

/-- What a mutating call issued while processing a row at `rank` looks
like: creates at the Species rank (including the accepted taxa created
by `get_accepted`) satisfy the data-model invariant, creates at the
other ranks carry `isaccepted` false with no `acceptedtaxon`, and
updates either leave `isaccepted` alone or synonymize (set it to false
together with a single accepted uri). -/
def goodCall (rank : RankName) : ApiCall → Prop
  | ApiCall.create p =>
      if rank = RankName.Species then payloadOk p
      else p.isaccepted = false ∧ p.acceptedtaxon = none
  | ApiCall.update _ u =>
      u.isaccepted = none ∨
        (u.isaccepted = some false ∧ ∃ uu, u.acceptedtaxon = some (some uu))

/-!
## Concrete sample data

A small concrete tree definition and store, used to evaluate the claims
on explicit inputs (witnesses and counterexamples).
-/

/-- The Order tree-definition item of the sample tree. -/
def diOrder : DefItem :=
  { id := 3, rankid := 100, treedef := 1, name := "Order",
    resource_uri := "/api/specify/taxontreedefitem/3/" }

/-- The Family tree-definition item of the sample tree. -/
def diFamily : DefItem :=
  { id := 4, rankid := 140, treedef := 1, name := "Family",
    resource_uri := "/api/specify/taxontreedefitem/4/" }

/-- The Genus tree-definition item of the sample tree. -/
def diGenus : DefItem :=
  { id := 5, rankid := 180, treedef := 1, name := "Genus",
    resource_uri := "/api/specify/taxontreedefitem/5/" }

/-- The Species tree-definition item of the sample tree. -/
def diSpecies : DefItem :=
  { id := 6, rankid := 220, treedef := 1, name := "Species",
    resource_uri := "/api/specify/taxontreedefitem/6/" }

/-- The `MAMMALIA` class-rank taxon of the sample store. -/
def mam : Taxon :=
  { id := 1, name := "Mammalia", author := none, isaccepted := true,
    acceptedtaxon := none, ishybrid := false, rankid := 60, version := 0,
    remarks := "", definition := "/api/specify/taxontreedef/1/",
    definitionitem := "/api/specify/taxontreedefitem/2/", defItemId := 2,
    parent := none, resource_uri := "/api/specify/taxon/1/" }

/-- The fetched tree globals of the sample run. -/
def ti0 : TreeInfo :=
  { mammalia := mam
    treeDefId := 1
    defItems := fun r =>
      match r with
      | RankName.Order => diOrder
      | RankName.Family => diFamily
      | RankName.Genus => diGenus
      | RankName.Species => diSpecies }

/-- A pre-existing Genus-rank taxon named `Gac` under Mammalia. -/
def gac : Taxon :=
  { id := 2, name := "Gac", author := none, isaccepted := true,
    acceptedtaxon := none, ishybrid := false, rankid := 180, version := 0,
    remarks := "", definition := "/api/specify/taxontreedef/1/",
    definitionitem := diGenus.resource_uri, defItemId := 5,
    parent := some mam.resource_uri,
    resource_uri := "/api/specify/taxon/2/" }

/-- A pre-existing accepted Species-rank taxon named `Sp` under `Gac`. -/
def spS : Taxon :=
  { id := 3, name := "Sp", author := some "Old", isaccepted := true,
    acceptedtaxon := none, ishybrid := false, rankid := 220, version := 0,
    remarks := "", definition := "/api/specify/taxontreedef/1/",
    definitionitem := diSpecies.resource_uri, defItemId := 6,
    parent := some gac.resource_uri,
    resource_uri := "/api/specify/taxon/3/" }

/-- Store holding Mammalia, the genus `Gac` and the accepted species
`Sp`, but no taxon named `SpAcc`. -/
def stC1 : St := { taxa := [mam, gac, spS], nextId := 20, trace := [] }

/-- A row whose species `Sp` is a synonym of `SpAcc` in genus `Gac`. -/
def rowC1 : Row :=
  { order := "O", family := "F", genus := "Gac", species := "Sp",
    isAccepted := "No", author := "Au", acceptedGenus := "Gac",
    acceptedSpecies := "SpAcc", acceptedAuthor := "AA" }

/-- A pre-existing Order-rank taxon named `Ord` under Mammalia. -/
def ordA : Taxon :=
  { id := 4, name := "Ord", author := none, isaccepted := true,
    acceptedtaxon := none, ishybrid := false, rankid := 100, version := 0,
    remarks := "", definition := "/api/specify/taxontreedef/1/",
    definitionitem := diOrder.resource_uri, defItemId := 3,
    parent := some mam.resource_uri,
    resource_uri := "/api/specify/taxon/4/" }

/-- Store holding Mammalia and the order `Ord`. -/
def stW1 : St := { taxa := [mam, ordA], nextId := 20, trace := [] }

/-- A fully accepted row naming the existing order `Ord`. -/
def rowW1 : Row :=
  { order := "Ord", family := "F", genus := "G", species := "S",
    isAccepted := "Yes", author := "Au", acceptedGenus := "",
    acceptedSpecies := "", acceptedAuthor := "" }

/-- Store holding only Mammalia: every rank of a row is missing. -/
def stC4 : St := { taxa := [mam], nextId := 20, trace := [] }

/-- A synonym Species-rank taxon named `Syn` under `Gac`, pointing at
the accepted species `Sp`. -/
def synS : Taxon :=
  { id := 5, name := "Syn", author := some "Au", isaccepted := false,
    acceptedtaxon := some spS.resource_uri, ishybrid := false,
    rankid := 220, version := 0, remarks := "",
    definition := "/api/specify/taxontreedef/1/",
    definitionitem := diSpecies.resource_uri, defItemId := 6,
    parent := some gac.resource_uri,
    resource_uri := "/api/specify/taxon/5/" }

/-- Store holding Mammalia, `Gac`, the accepted `Sp` and the synonym
`Syn`. -/
def stC8 : St := { taxa := [mam, gac, spS, synS], nextId := 20, trace := [] }

/-- A row naming the stored synonym `Syn` as an accepted species. -/
def rowC8 : Row :=
  { order := "O", family := "F", genus := "Gac", species := "Syn",
    isAccepted := "Yes", author := "Au", acceptedGenus := "",
    acceptedSpecies := "", acceptedAuthor := "" }

/-!
## List helper lemmas
-/

theorem find?_append_some {α : Type} {l₁ l₂ : List α} {p : α → Bool}
    {x : α} (h : l₁.find? p = some x) : (l₁ ++ l₂).find? p = some x := by
  induction l₁ with
  | nil => simp [List.find?] at h
  | cons a tl ih =>
    rw [List.cons_append]
    rw [List.find?] at h ⊢
    cases hp : p a with
    | true => simpa [hp] using h
    | false =>
      rw [hp] at h
      simpa using ih h

theorem find?_append_none {α : Type} {l₁ l₂ : List α} {p : α → Bool}
    (h : l₁.find? p = none) : (l₁ ++ l₂).find? p = l₂.find? p := by
  induction l₁ with
  | nil => simp
  | cons a tl ih =>
    rw [List.cons_append]
    rw [List.find?] at h ⊢
    cases hp : p a with
    | true => simp [hp] at h
    | false =>
      rw [hp] at h
      simpa using ih h

theorem find?_map_congr {α β : Type} (l : List α) (f : α → β)
    (p : β → Bool) (q : α → Bool) (h : ∀ r ∈ l, p (f r) = q r) :
    (l.map f).find? p = (l.find? q).map f := by
  induction l with
  | nil => simp
  | cons a tl ih =>
    rw [List.map_cons, List.find?, List.find?, h a (List.mem_cons_self a tl)]
    cases hq : q a with
    | true => simp
    | false => simpa using ih fun r hr => h r (List.mem_cons_of_mem a hr)

theorem filter_map_congr {α β : Type} (l : List α) (f : α → β)
    (p : β → Bool) (q : α → Bool) (h : ∀ r ∈ l, p (f r) = q r) :
    (l.map f).filter p = (l.filter q).map f := by
  induction l with
  | nil => simp
  | cons a tl ih =>
    rw [List.map_cons, List.filter_cons, List.filter_cons,
      h a (List.mem_cons_self a tl)]
    have ih' := ih fun r hr => h r (List.mem_cons_of_mem a hr)
    cases hq : q a with
    | true => simp [ih']
    | false => simp [ih']

theorem find?_exists_some {α : Type} {l : List α} {p : α → Bool}
    {x : α} (hx : x ∈ l) (hpx : p x = true) :
    ∃ y, l.find? p = some y := by
  induction l with
  | nil => cases hx
  | cons a tl ih =>
    rw [List.find?]
    cases hp : p a with
    | true => exact ⟨a, rfl⟩
    | false =>
      rcases List.mem_cons.mp hx with rfl | hx'
      · rw [hp] at hpx; cases hpx
      · exact ih hx'

/-!
## Properties of the store-evolution data
-/

theorem applyUpdate_keys (t : Taxon) (u : TaxonUpdate) :
    (applyUpdate t u).id = t.id ∧ (applyUpdate t u).name = t.name ∧
    (applyUpdate t u).resource_uri = t.resource_uri ∧
    (applyUpdate t u).defItemId = t.defItemId ∧
    (applyUpdate t u).parent = t.parent :=
  ⟨rfl, rfl, rfl, rfl, rfl⟩

theorem applyUpdate_id_eq (t : Taxon) (u : TaxonUpdate) :
    (applyUpdate t u).id = t.id := rfl

theorem applyUpdate_isaccepted (t : Taxon) (u : TaxonUpdate) :
    (applyUpdate t u).isaccepted = u.isaccepted.getD t.isaccepted := rfl

theorem applyUpdate_acceptedtaxon (t : Taxon) (u : TaxonUpdate) :
    (applyUpdate t u).acceptedtaxon = u.acceptedtaxon.getD t.acceptedtaxon :=
  rfl

theorem keylike_id : keylike id := by
  intro r
  exact ⟨rfl, rfl, rfl, rfl, rfl, fun h => h⟩

theorem keylike_comp {f g : Taxon → Taxon} (hf : keylike f)
    (hg : keylike g) : keylike (g ∘ f) := by
  intro r
  obtain ⟨h1, h2, h3, h4, h5, h6⟩ := hf r
  obtain ⟨g1, g2, g3, g4, g5, g6⟩ := hg (f r)
  exact ⟨g1.trans h1, g2.trans h2, g3.trans h3, g4.trans h4, g5.trans h5,
    fun h => h6 (g6 h)⟩

theorem keylike_updFn (i : Nat) (u : TaxonUpdate)
    (hu : u.isaccepted = none ∨ u.isaccepted = some false) :
    keylike (updFn i u) := by
  intro r
  unfold updFn
  by_cases h : r.id == i
  · simp only [h, if_true]
    refine ⟨rfl, rfl, rfl, rfl, rfl, ?_⟩
    rw [applyUpdate_isaccepted]
    rcases hu with hu | hu <;> simp [hu]
  · simp only [h, if_false]
    exact ⟨rfl, rfl, rfl, rfl, rfl, fun h => h⟩

theorem stepdata_refl (st : St) : StepData id [] st st := by
  refine ⟨by simp, keylike_id, by simp, le_refl _⟩

theorem stepdata_trans {f₁ f₂ : Taxon → Taxon} {c₁ c₂ : List Taxon}
    {a b c : St} (h₁ : StepData f₁ c₁ a b) (h₂ : StepData f₂ c₂ b c) :
    StepData (f₂ ∘ f₁) (c₁.map f₂ ++ c₂) a c := by
  obtain ⟨ht₁, hk₁, hc₁, hn₁⟩ := h₁
  obtain ⟨ht₂, hk₂, hc₂, hn₂⟩ := h₂
  refine ⟨?_, keylike_comp hk₁ hk₂, ?_, le_trans hn₁ hn₂⟩
  · rw [ht₂, ht₁, List.map_append, List.map_map, List.append_assoc]
  · intro x hx
    rcases List.mem_append.mp hx with hx | hx
    · obtain ⟨y, hy, rfl⟩ := List.mem_map.mp hx
      have := (hk₂ y).1
      rw [this]
      exact hc₁ y hy
    · exact le_trans hn₁ (hc₂ x hx)

theorem simw_refl (st : St) : SimW st st :=
  ⟨id, [], stepdata_refl st⟩

theorem simw_trans {a b c : St} (h₁ : SimW a b) (h₂ : SimW b c) :
    SimW a c := by
  obtain ⟨f₁, c₁, hd₁⟩ := h₁
  obtain ⟨f₂, c₂, hd₂⟩ := h₂
  exact ⟨f₂ ∘ f₁, c₁.map f₂ ++ c₂, stepdata_trans hd₁ hd₂⟩

theorem stepdata_create (st : St) (p : TaxonPayload) :
    StepData id [(create_resource st p).2] st (create_resource st p).1 := by
  refine ⟨by simp [create_resource], keylike_id, ?_, by simp [create_resource]⟩
  intro c hc
  rcases List.mem_singleton.mp hc with rfl
  simp [create_resource]

theorem stepdata_update (st : St) (t : Taxon) (u : TaxonUpdate)
    (hu : u.isaccepted = none ∨ u.isaccepted = some false) :
    StepData (updFn t.id u) [] st (update_resource_taxon st t u).1 := by
  refine ⟨?_, keylike_updFn t.id u hu, by simp, le_refl _⟩
  simp [update_resource_taxon, updFn]

theorem simw_update_author (st : St) (t : Taxon) (a : String) :
    SimW st (update_author st t a).1 := by
  unfold update_author
  by_cases h : t.author = some a
  · simp only [h, if_true]
    exact simw_refl st
  · simp only [h, if_false]
    exact ⟨updFn t.id _, [], stepdata_update st t _ (Or.inl rfl)⟩

theorem simw_create_accepted (ti : TreeInfo) (st : St) (di : DefItem)
    (name : String) (parent : Option Taxon) (author : Option String) :
    SimW st (create_accepted_taxon ti st di name parent author).1 := by
  unfold create_accepted_taxon
  exact ⟨id, [_], stepdata_create st _⟩

theorem simw_get_accepted (ti : TreeInfo) (st : St) (row : Row) :
    SimW st (get_accepted ti st row).1 := by
  unfold get_accepted
  by_cases hy : row.isAccepted = "Yes"
  · simp only [hy, if_true]
    exact simw_refl st
  · simp only [hy, if_false]
    cases hfind : get_taxon st row.acceptedSpecies
        (ti.defItems RankName.Species).id (some row.acceptedGenus) with
    | some accepted =>
      simp only [hfind]
      exact simw_update_author st accepted row.acceptedAuthor
    | none =>
      simp only [hfind]
      cases hgen : get_taxon st row.acceptedGenus
          (ti.defItems RankName.Genus).id none with
      | some g =>
        simp only [hgen]
        exact simw_create_accepted ti st _ _ _ _
      | none =>
        simp only [hgen]
        exact simw_trans (simw_create_accepted ti st _ _ _ _)
          (simw_create_accepted ti _ _ _ _ _)

theorem simw_synonymize (ti : TreeInfo) (st : St) (row : Row)
    (t : Taxon) : SimW st (synonymize_taxon ti st row t).1 := by
  refine simw_trans (simw_get_accepted ti st row) ?_
  unfold synonymize_taxon
  exact ⟨updFn t.id _, [], stepdata_update _ t _ (Or.inr rfl)⟩

theorem simw_get_or_create (ti : TreeInfo) (st : St) (row : Row)
    (rank : RankName) (parent : Taxon) :
    SimW st (get_or_create_taxon ti st row rank parent).1 := by
  unfold get_or_create_taxon
  cases hfind : get_taxon st (row.field rank) (ti.defItems rank).id
      (some parent.name) with
  | some taxon =>
    simp only [hfind]
    by_cases hsyn : rank = RankName.Species ∧ taxon.isaccepted = true ∧
        decide (row.isAccepted = "Yes" ∧ rank = RankName.Species) = false
    · rw [if_pos hsyn, if_pos hsyn.1]
      exact simw_trans (simw_synonymize ti st row taxon)
        (simw_update_author _ _ _)
    · rw [if_neg hsyn]
      by_cases hsp : rank = RankName.Species
      · rw [if_pos hsp]
        exact simw_update_author st taxon row.author
      · rw [if_neg hsp]
        exact simw_refl st
  | none =>
    simp only [hfind]
    by_cases hsp : rank = RankName.Species
    · rw [if_pos hsp]
      exact simw_trans (simw_get_accepted ti st row)
        ⟨id, [_], stepdata_create _ _⟩
    · rw [if_neg hsp]
      exact ⟨id, [_], stepdata_create _ _⟩

theorem simw_proccess_row (ti : TreeInfo) (st : St) (row : Row) :
    SimW st (proccess_row ti st row).1 := by
  simp only [proccess_row, rankOrder, List.foldl]
  exact simw_trans (simw_get_or_create ti st row RankName.Order ti.mammalia)
    (simw_trans (simw_get_or_create ti _ row RankName.Family _)
      (simw_trans (simw_get_or_create ti _ row RankName.Genus _)
        (simw_get_or_create ti _ row RankName.Species _)))

/-!
## Stability of queries under store evolution
-/

theorem parentNameOf_stable {f : Taxon → Taxon} {created : List Taxon}
    {pre post : St} (hpost : post.taxa = pre.taxa.map f ++ created)
    (hk : keylike f) (hcl : closedParents pre = true) {r : Taxon}
    (hr : r ∈ pre.taxa) : parentNameOf post (f r) = parentNameOf pre r := by
  obtain ⟨-, -, -, -, hpar, -⟩ := hk r
  unfold parentNameOf
  rw [hpar]
  cases hp : r.parent with
  | none => rfl
  | some u =>
    have hclr := (List.all_eq_true.mp hcl) r hr
    rw [hp] at hclr
    simp only at hclr
    obtain ⟨p, hpmem, hpuri⟩ := List.any_eq_true.mp hclr
    obtain ⟨p₀, hfind⟩ :=
      find?_exists_some (p := fun q => q.resource_uri == u) hpmem hpuri
    have hmap : (pre.taxa.map f).find? (fun q => q.resource_uri == u) =
        some (f p₀) := by
      rw [find?_map_congr pre.taxa f _ (fun q => q.resource_uri == u)
        (fun x _ => by rw [(hk x).2.2.1]), hfind]
      rfl
    rw [hpost, Option.some_bind, Option.some_bind,
      find?_append_some hmap, hfind]
    simp [(hk p₀).2.1]

theorem taxonMatches_stable {f : Taxon → Taxon} {created : List Taxon}
    {pre post : St} (hpost : post.taxa = pre.taxa.map f ++ created)
    (hk : keylike f) (hcl : closedParents pre = true) (n : String)
    (d : Nat) (pn : Option String) {r : Taxon} (hr : r ∈ pre.taxa) :
    taxonMatches post n d pn (f r) = taxonMatches pre n d pn r := by
  obtain ⟨-, hname, -, hdef, -, -⟩ := hk r
  unfold taxonMatches
  rw [hname, hdef]
  cases pn with
  | none => rfl
  | some p => rw [parentNameOf_stable hpost hk hcl hr]

theorem matchingTaxa_sim {f : Taxon → Taxon} {created : List Taxon}
    {pre post : St} (hpost : post.taxa = pre.taxa.map f ++ created)
    (hk : keylike f) (hcl : closedParents pre = true) (n : String)
    (d : Nat) (pn : Option String) :
    matchingTaxa post n d pn = (matchingTaxa pre n d pn).map f ++
      created.filter (taxonMatches post n d pn) := by
  unfold matchingTaxa
  rw [hpost, List.filter_append,
    filter_map_congr pre.taxa f _ _
      (fun r hr => taxonMatches_stable hpost hk hcl n d pn hr)]

theorem get_taxon_sim {f : Taxon → Taxon} {created : List Taxon}
    {pre post : St} (hpost : post.taxa = pre.taxa.map f ++ created)
    (hk : keylike f) (hcl : closedParents pre = true) {n : String}
    {d : Nat} {pn : Option String} {t : Taxon}
    (h : get_taxon pre n d pn = some t) :
    get_taxon post n d pn = some (f t) := by
  unfold get_taxon at h ⊢
  rw [matchingTaxa_sim hpost hk hcl]
  cases hm : matchingTaxa pre n d pn with
  | nil => rw [hm] at h; simp at h
  | cons a tl =>
    rw [hm] at h
    simp only [List.head?] at h
    cases h
    rfl

theorem get_taxon_mem {st : St} {n : String} {d : Nat}
    {pn : Option String} {t : Taxon} (h : get_taxon st n d pn = some t) :
    t ∈ st.taxa := by
  unfold get_taxon at h
  cases hm : matchingTaxa st n d pn with
  | nil => rw [hm] at h; simp at h
  | cons a tl =>
    rw [hm] at h
    simp only [List.head?] at h
    cases h
    have : t ∈ matchingTaxa st n d pn := by
      rw [hm]; exact List.mem_cons_self t tl
    exact List.mem_of_mem_filter this

theorem find?_id_of_nodup {l : List Taxon}
    (hnd : (l.map Taxon.id).Nodup) {t : Taxon} (ht : t ∈ l) :
    l.find? (fun r => r.id == t.id) = some t := by
  induction l with
  | nil => cases ht
  | cons a tl ih =>
    rw [List.map_cons] at hnd
    have hnd' := List.nodup_cons.mp hnd
    rw [List.find?]
    rcases List.mem_cons.mp ht with rfl | ht'
    · simp
    · have hne : a.id ≠ t.id := by
        intro he
        have : t.id ∈ tl.map Taxon.id := List.mem_map_of_mem Taxon.id ht'
        rw [← he] at this
        exact hnd'.1 this
      have : (a.id == t.id) = false := by simpa using hne
      rw [this]
      exact ih hnd'.2 ht'

theorem recordAt_sim {f : Taxon → Taxon} {created : List Taxon}
    {pre post : St} (hpost : post.taxa = pre.taxa.map f ++ created)
    (hk : keylike f) (hnd : idsNodup pre) {t : Taxon}
    (ht : t ∈ pre.taxa) : recordAt post t.id = some (f t) := by
  unfold recordAt
  rw [hpost]
  refine find?_append_some ?_
  rw [find?_map_congr pre.taxa f _ (fun r => r.id == t.id)
    (fun x _ => by rw [(hk x).1]), find?_id_of_nodup hnd ht]
  rfl

theorem mem_id_unique {l : List Taxon} (hnd : (l.map Taxon.id).Nodup)
    {a b : Taxon} (ha : a ∈ l) (hb : b ∈ l) (hid : a.id = b.id) :
    a = b := by
  induction l with
  | nil => cases ha
  | cons c tl ih =>
    rw [List.map_cons] at hnd
    have hnd' := List.nodup_cons.mp hnd
    rcases List.mem_cons.mp ha with rfl | ha' <;>
      rcases List.mem_cons.mp hb with rfl | hb'
    · rfl
    · exact absurd (hid ▸ List.mem_map_of_mem Taxon.id hb') hnd'.1
    · exact absurd (hid ▸ List.mem_map_of_mem Taxon.id ha') hnd'.1
    · exact ih hnd'.2 ha' hb'

/-!
## Value and trace computation lemmas
-/

theorem countCreates_append (l₁ l₂ : List ApiCall) :
    countCreates (l₁ ++ l₂) = countCreates l₁ + countCreates l₂ := by
  simp [countCreates, List.filter_append]

theorem countUpdates_append (l₁ l₂ : List ApiCall) :
    countUpdates (l₁ ++ l₂) = countUpdates l₁ + countUpdates l₂ := by
  simp [countUpdates, List.filter_append]

theorem countCreates_single_update (i : Nat) (u : TaxonUpdate) :
    countCreates [ApiCall.update i u] = 0 := rfl

theorem countUpdates_single_create (p : TaxonPayload) :
    countUpdates [ApiCall.create p] = 0 := rfl

theorem countUpdates_single_update (i : Nat) (u : TaxonUpdate) :
    countUpdates [ApiCall.update i u] = 1 := rfl

theorem update_resource_taxon_snd (st : St) (t : Taxon) (u : TaxonUpdate) :
    (update_resource_taxon st t u).2 =
      applyUpdate ((recordAt st t.id).getD t) u := rfl

theorem update_resource_taxon_trace (st : St) (t : Taxon)
    (u : TaxonUpdate) :
    (update_resource_taxon st t u).1.trace =
      st.trace ++ [ApiCall.update t.id u] := rfl

theorem create_resource_trace (st : St) (p : TaxonPayload) :
    (create_resource st p).1.trace = st.trace ++ [ApiCall.create p] := rfl

theorem update_resource_taxon_taxa (st : St) (t : Taxon) (u : TaxonUpdate) :
    (update_resource_taxon st t u).1.taxa =
      st.taxa.map fun r => if r.id == t.id then applyUpdate r u else r := rfl

theorem mem_append_single {α : Type} {c x : α} {l : List α}
    (h : c ∈ l ++ [x]) : c ∈ l ∨ c = x := by
  rcases List.mem_append.mp h with h | h
  · exact Or.inl h
  · exact Or.inr (List.mem_singleton.mp h)

/-!
## Branch-level unfoldings of the operations
-/

theorem synonymize_eq (ti : TreeInfo) (st : St) (row : Row) (t : Taxon) :
    synonymize_taxon ti st row t =
      update_resource_taxon (get_accepted ti st row).1 t
        { author := none, isaccepted := some false,
          acceptedtaxon := some (get_accepted ti st row).2 } := rfl

theorem goc_found_nonspecies (ti : TreeInfo) (st : St) (row : Row)
    (rank : RankName) (parent t : Taxon)
    (hrank : rank ≠ RankName.Species)
    (ht : get_taxon st (row.field rank) (ti.defItems rank).id
      (some parent.name) = some t) :
    get_or_create_taxon ti st row rank parent = (st, t) := by
  simp [get_or_create_taxon, ht, hrank]

theorem goc_species_found_nosyn (ti : TreeInfo) (st : St) (row : Row)
    (parent t : Taxon)
    (ht : get_taxon st (row.field RankName.Species)
      (ti.defItems RankName.Species).id (some parent.name) = some t)
    (hno : ¬(t.isaccepted = true ∧ row.isAccepted ≠ "Yes")) :
    get_or_create_taxon ti st row RankName.Species parent =
      update_author st t row.author := by
  by_cases hacc : t.isaccepted = true
  · have hrow : row.isAccepted = "Yes" := by
      by_contra hrow
      exact hno ⟨hacc, hrow⟩
    simp [get_or_create_taxon, ht, hacc, hrow]
  · simp [get_or_create_taxon, ht, hacc]

theorem goc_species_found_syn (ti : TreeInfo) (st : St) (row : Row)
    (parent t : Taxon)
    (ht : get_taxon st (row.field RankName.Species)
      (ti.defItems RankName.Species).id (some parent.name) = some t)
    (hacc : t.isaccepted = true) (hrow : row.isAccepted ≠ "Yes") :
    get_or_create_taxon ti st row RankName.Species parent =
      update_author (synonymize_taxon ti st row t).1
        (synonymize_taxon ti st row t).2 row.author := by
  simp [get_or_create_taxon, ht, hacc, hrow]

theorem goc_notfound_species (ti : TreeInfo) (st : St) (row : Row)
    (parent : Taxon)
    (hnone : get_taxon st (row.field RankName.Species)
      (ti.defItems RankName.Species).id (some parent.name) = none) :
    get_or_create_taxon ti st row RankName.Species parent =
      create_resource (get_accepted ti st row).1
        { name := row.field RankName.Species
          author := some row.author
          acceptedtaxon := (get_accepted ti st row).2
          isaccepted := decide (row.isAccepted = "Yes" ∧
            RankName.Species = RankName.Species)
          ishybrid := false
          rankid := (ti.defItems RankName.Species).rankid
          version := 0
          remarks := "Generated in Demo"
          definition := construct_api_link "taxontreedef" ti.treeDefId
          definitionitem := (ti.defItems RankName.Species).resource_uri
          defItemId := (ti.defItems RankName.Species).id
          parent := some parent.resource_uri } := by
  simp [get_or_create_taxon, hnone]

theorem goc_notfound_nonspecies (ti : TreeInfo) (st : St) (row : Row)
    (rank : RankName) (parent : Taxon) (hrank : rank ≠ RankName.Species)
    (hnone : get_taxon st (row.field rank) (ti.defItems rank).id
      (some parent.name) = none) :
    get_or_create_taxon ti st row rank parent =
      create_resource st
        { name := row.field rank
          author := none
          acceptedtaxon := none
          isaccepted := decide (row.isAccepted = "Yes" ∧
            rank = RankName.Species)
          ishybrid := false
          rankid := (ti.defItems rank).rankid
          version := 0
          remarks := "Generated in Demo"
          definition := construct_api_link "taxontreedef" ti.treeDefId
          definitionitem := (ti.defItems rank).resource_uri
          defItemId := (ti.defItems rank).id
          parent := some parent.resource_uri } := by
  simp [get_or_create_taxon, hnone, hrank]

/-!
## Facts about `get_accepted`
-/

theorem get_accepted_none_of_yes (ti : TreeInfo) (st : St) (row : Row)
    (h : row.isAccepted = "Yes") : get_accepted ti st row = (st, none) := by
  unfold get_accepted
  rw [if_pos h]

theorem get_accepted_some (ti : TreeInfo) (st : St) (row : Row)
    (h : row.isAccepted ≠ "Yes") :
    ∃ u, (get_accepted ti st row).2 = some u := by
  unfold get_accepted
  rw [if_neg h]
  cases hfind : get_taxon st row.acceptedSpecies
      (ti.defItems RankName.Species).id (some row.acceptedGenus) with
  | some accepted => exact ⟨_, rfl⟩
  | none =>
    cases hgen : get_taxon st row.acceptedGenus
        (ti.defItems RankName.Genus).id none with
    | some g => exact ⟨_, rfl⟩
    | none => exact ⟨_, rfl⟩

theorem goodCalls_update_author (st : St) (t : Taxon) (a : String)
    (rank : RankName) :
    ∀ c ∈ (update_author st t a).1.trace, c ∈ st.trace ∨ goodCall rank c := by
  intro c hc
  unfold update_author at hc
  by_cases h : t.author = some a
  · rw [if_pos h] at hc
    exact Or.inl hc
  · rw [if_neg h, update_resource_taxon_trace] at hc
    rcases mem_append_single hc with hc | rfl
    · exact Or.inl hc
    · exact Or.inr (Or.inl rfl)

theorem goodCalls_get_accepted (ti : TreeInfo) (st : St) (row : Row) :
    ∀ c ∈ (get_accepted ti st row).1.trace,
      c ∈ st.trace ∨ goodCall RankName.Species c := by
  intro c hc
  unfold get_accepted at hc
  by_cases hy : row.isAccepted = "Yes"
  · rw [if_pos hy] at hc
    exact Or.inl hc
  · rw [if_neg hy] at hc
    cases hfind : get_taxon st row.acceptedSpecies
        (ti.defItems RankName.Species).id (some row.acceptedGenus) with
    | some accepted =>
      rw [hfind] at hc
      exact goodCalls_update_author st accepted row.acceptedAuthor
        RankName.Species c hc
    | none =>
      rw [hfind] at hc
      cases hgen : get_taxon st row.acceptedGenus
          (ti.defItems RankName.Genus).id none with
      | some g =>
        rw [hgen] at hc
        simp only [create_accepted_taxon, create_resource_trace] at hc
        rcases mem_append_single hc with hc | rfl
        · exact Or.inl hc
        · exact Or.inr (Or.inl ⟨rfl, rfl⟩)
      | none =>
        rw [hgen] at hc
        simp only [create_accepted_taxon, create_resource_trace,
          List.append_assoc] at hc
        rcases List.mem_append.mp hc with hc | hc
        · exact Or.inl hc
        · rcases List.mem_cons.mp hc with rfl | hc
          · exact Or.inr (Or.inl ⟨rfl, rfl⟩)
          · rcases List.mem_singleton.mp hc with rfl
            exact Or.inr (Or.inl ⟨rfl, rfl⟩)

theorem goodCalls_synonymize (ti : TreeInfo) (st : St) (row : Row)
    (t : Taxon) (hrow : row.isAccepted ≠ "Yes") :
    ∀ c ∈ (synonymize_taxon ti st row t).1.trace,
      c ∈ st.trace ∨ goodCall RankName.Species c := by
  intro c hc
  rw [synonymize_eq, update_resource_taxon_trace] at hc
  rcases mem_append_single hc with hc | rfl
  · exact goodCalls_get_accepted ti st row c hc
  · obtain ⟨u, hu⟩ := get_accepted_some ti st row hrow
    exact Or.inr (Or.inr ⟨rfl, u, by rw [hu]⟩)

/-- The full effect of `get_or_create_taxon` at the Species rank on an
existing accepted record that the row synonymizes: the store evolves by
a keylike rewrite plus creations, and the returned record is the
rewritten stored record — synonymized, with the row's author, and with
`acceptedtaxon` the uri `get_accepted` produced. -/
theorem species_syn_path (ti : TreeInfo) (st : St) (row : Row)
    (parent t : Taxon) (hnd : idsNodup st)
    (ht : get_taxon st (row.field RankName.Species)
      (ti.defItems RankName.Species).id (some parent.name) = some t)
    (hacc : t.isaccepted = true) (hrow : row.isAccepted ≠ "Yes") :
    ∃ f created,
      StepData f created st
        (get_or_create_taxon ti st row RankName.Species parent).1 ∧
      (get_or_create_taxon ti st row RankName.Species parent).2 = f t ∧
      (f t).id = t.id ∧ (f t).isaccepted = false ∧
      (f t).acceptedtaxon = (get_accepted ti st row).2 ∧
      (f t).author = some row.author := by
  have htm : t ∈ st.taxa := get_taxon_mem ht
  obtain ⟨fa, ca, hpa, hka, hca, hna⟩ := simw_get_accepted ti st row
  have hfa_id : (fa t).id = t.id := (hka t).1
  have hrec1 : recordAt (get_accepted ti st row).1 t.id = some (fa t) :=
    recordAt_sim hpa hka hnd htm
  have hts : (synonymize_taxon ti st row t).2 =
      applyUpdate (fa t)
        { author := none, isaccepted := some false,
          acceptedtaxon := some (get_accepted ti st row).2 } := by
    rw [synonymize_eq, update_resource_taxon_snd, hrec1]
    rfl
  have hstep2 : StepData
      (updFn t.id
        { author := none, isaccepted := some false,
          acceptedtaxon := some (get_accepted ti st row).2 }) []
      (get_accepted ti st row).1 (synonymize_taxon ti st row t).1 := by
    rw [synonymize_eq]
    exact stepdata_update _ t _ (Or.inr rfl)
  have hcomp := stepdata_trans ⟨hpa, hka, hca, hna⟩ hstep2
  have hcomp_t :
      (updFn t.id
        { author := none, isaccepted := some false,
          acceptedtaxon := some (get_accepted ti st row).2 } ∘ fa) t =
      applyUpdate (fa t)
        { author := none, isaccepted := some false,
          acceptedtaxon := some (get_accepted ti st row).2 } := by
    simp [updFn, Function.comp, hfa_id]
  have hgoc := goc_species_found_syn ti st row parent t ht hacc hrow
  by_cases hau : (synonymize_taxon ti st row t).2.author = some row.author
  · have hua : update_author (synonymize_taxon ti st row t).1
        (synonymize_taxon ti st row t).2 row.author =
        ((synonymize_taxon ti st row t).1,
         (synonymize_taxon ti st row t).2) := by
      unfold update_author
      rw [if_pos hau]
    refine ⟨updFn t.id
        { author := none, isaccepted := some false,
          acceptedtaxon := some (get_accepted ti st row).2 } ∘ fa,
      ca.map (updFn t.id
        { author := none, isaccepted := some false,
          acceptedtaxon := some (get_accepted ti st row).2 }) ++ [],
      ?_, ?_, ?_, ?_, ?_, ?_⟩
    · rw [hgoc, hua]
      exact hcomp
    · rw [hgoc, hua, hcomp_t, hts]
    · rw [hcomp_t]
      simpa using hfa_id
    · rw [hcomp_t]
      rfl
    · rw [hcomp_t]
      rfl
    · rw [hcomp_t, ← hts]
      exact hau
  · have hts_id : (synonymize_taxon ti st row t).2.id = t.id := by
      rw [hts]
      simpa using hfa_id
    have hrec2 : recordAt (synonymize_taxon ti st row t).1
        (synonymize_taxon ti st row t).2.id =
        some ((updFn t.id
          { author := none, isaccepted := some false,
            acceptedtaxon := some (get_accepted ti st row).2 } ∘ fa) t) := by
      rw [hts_id]
      exact recordAt_sim hcomp.1 hcomp.2.1 hnd htm
    have hua : update_author (synonymize_taxon ti st row t).1
        (synonymize_taxon ti st row t).2 row.author =
        update_resource_taxon (synonymize_taxon ti st row t).1
          (synonymize_taxon ti st row t).2
          { author := some row.author, isaccepted := none,
            acceptedtaxon := none } := by
      unfold update_author
      rw [if_neg hau]
    have hstep3 : StepData
        (updFn t.id
          { author := some row.author, isaccepted := none,
            acceptedtaxon := none }) []
        (synonymize_taxon ti st row t).1
        (update_resource_taxon (synonymize_taxon ti st row t).1
          (synonymize_taxon ti st row t).2
          { author := some row.author, isaccepted := none,
            acceptedtaxon := none }).1 := by
      have := stepdata_update (synonymize_taxon ti st row t).1
        (synonymize_taxon ti st row t).2
        { author := some row.author, isaccepted := none,
          acceptedtaxon := none } (Or.inl rfl)
      rwa [hts_id] at this
    have hfinal := stepdata_trans hcomp hstep3
    have hres2 : (update_resource_taxon (synonymize_taxon ti st row t).1
        (synonymize_taxon ti st row t).2
        { author := some row.author, isaccepted := none,
          acceptedtaxon := none }).2 =
        applyUpdate ((updFn t.id
          { author := none, isaccepted := some false,
            acceptedtaxon := some (get_accepted ti st row).2 } ∘ fa) t)
          { author := some row.author, isaccepted := none,
            acceptedtaxon := none } := by
    -- fresh fetch of the synonymized record
      rw [update_resource_taxon_snd, hrec2]
      rfl
    have hft : (updFn t.id
        { author := some row.author, isaccepted := none,
          acceptedtaxon := none } ∘
        (updFn t.id
          { author := none, isaccepted := some false,
            acceptedtaxon := some (get_accepted ti st row).2 } ∘ fa)) t =
        applyUpdate (applyUpdate (fa t)
          { author := none, isaccepted := some false,
            acceptedtaxon := some (get_accepted ti st row).2 })
          { author := some row.author, isaccepted := none,
            acceptedtaxon := none } := by
      rw [Function.comp_apply, hcomp_t]
      simp [updFn, applyUpdate_id_eq, hfa_id]
    refine ⟨updFn t.id
        { author := some row.author, isaccepted := none,
          acceptedtaxon := none } ∘
        (updFn t.id
          { author := none, isaccepted := some false,
            acceptedtaxon := some (get_accepted ti st row).2 } ∘ fa),
      (ca.map (updFn t.id
        { author := none, isaccepted := some false,
          acceptedtaxon := some (get_accepted ti st row).2 }) ++ []).map
        (updFn t.id
          { author := some row.author, isaccepted := none,
            acceptedtaxon := none }) ++ [],
      ?_, ?_, ?_, ?_, ?_, ?_⟩
    · rw [hgoc, hua]
      exact hfinal
    · rw [hgoc, hua, hft, hres2, hcomp_t]
    · rw [hft]
      simpa using hfa_id
    · rw [hft]
      rfl
    · rw [hft]
      rfl
    · rw [hft]
      rfl

/-!
## Claim theorems
-/

/-- C1 (amended).  When a Taxon record with the row's name at the given
rank under a parent of the given name already exists in the store,
`get_or_create_taxon` returns that existing record (same id, possibly
with its author updated or the record synonymized); it issues no
`create_resource` call except in the synonymize case, where
`get_accepted` may create missing accepted taxa; and running
`get_or_create_taxon` a second time on the resulting state is the
identity: it creates no new record, changes nothing, and yields the same
taxon. -/
theorem get_or_create_taxon_existing_idempotent_amended (ti : TreeInfo)
    (st : St) (row : Row) (rank : RankName) (parent t : Taxon)
    (hnd : idsNodup st) (hcl : closedParents st = true)
    (ht : get_taxon st (row.field rank) (ti.defItems rank).id
      (some parent.name) = some t) :
    (get_or_create_taxon ti st row rank parent).2.id = t.id ∧
    (¬(rank = RankName.Species ∧ t.isaccepted = true ∧
        row.isAccepted ≠ "Yes") →
      countCreates (get_or_create_taxon ti st row rank parent).1.trace =
        countCreates st.trace) ∧
    get_or_create_taxon ti (get_or_create_taxon ti st row rank parent).1
      row rank parent = get_or_create_taxon ti st row rank parent := by
  by_cases hsp : rank = RankName.Species
  · subst hsp
    by_cases hsy : t.isaccepted = true ∧ row.isAccepted ≠ "Yes"
    · obtain ⟨f, c, hd, hres, hid, hia, -, hau⟩ :=
        species_syn_path ti st row parent t hnd ht hsy.1 hsy.2
      refine ⟨?_, ?_, ?_⟩
      · rw [hres]
        exact hid
      · intro h
        exact absurd ⟨rfl, hsy.1, hsy.2⟩ h
      · have hsim : get_taxon
            (get_or_create_taxon ti st row RankName.Species parent).1
            (row.field RankName.Species) (ti.defItems RankName.Species).id
            (some parent.name) = some (f t) :=
          get_taxon_sim hd.1 hd.2.1 hcl ht
        have hno : ¬((f t).isaccepted = true ∧ row.isAccepted ≠ "Yes") := by
          rintro ⟨h1, -⟩
          rw [hia] at h1
          cases h1
        have h2 := goc_species_found_nosyn ti
          (get_or_create_taxon ti st row RankName.Species parent).1 row
          parent (f t) hsim hno
        rw [h2]
        unfold update_author
        rw [if_pos hau, ← hres]
    · have h1 := goc_species_found_nosyn ti st row parent t ht hsy
      by_cases hae : t.author = some row.author
      · have h2 : update_author st t row.author = (st, t) := by
          unfold update_author
          rw [if_pos hae]
        refine ⟨by rw [h1, h2], fun _ => by rw [h1, h2], ?_⟩
        rw [h1, h2]
        exact h1.trans h2
      · have h2 : update_author st t row.author =
            update_resource_taxon st t
              { author := some row.author, isaccepted := none,
                acceptedtaxon := none } := by
          unfold update_author
          rw [if_neg hae]
        have hrec : recordAt st t.id = some t :=
          find?_id_of_nodup hnd (get_taxon_mem ht)
        have hres : (update_resource_taxon st t
            { author := some row.author, isaccepted := none,
              acceptedtaxon := none }).2 =
            applyUpdate t
              { author := some row.author, isaccepted := none,
                acceptedtaxon := none } := by
          rw [update_resource_taxon_snd, hrec]
          rfl
        have hstep : StepData
            (updFn t.id
              { author := some row.author, isaccepted := none,
                acceptedtaxon := none }) [] st
            (update_resource_taxon st t
              { author := some row.author, isaccepted := none,
                acceptedtaxon := none }).1 :=
          stepdata_update st t _ (Or.inl rfl)
        have hft : updFn t.id
            { author := some row.author, isaccepted := none,
              acceptedtaxon := none } t =
            applyUpdate t
              { author := some row.author, isaccepted := none,
                acceptedtaxon := none } := by
          simp [updFn]
        refine ⟨?_, ?_, ?_⟩
        · rw [h1, h2, hres]
          exact applyUpdate_id_eq t _
        · intro _
          rw [h1, h2, update_resource_taxon_trace, countCreates_append,
            countCreates_single_update, Nat.add_zero]
        · have hsim := get_taxon_sim hstep.1 hstep.2.1 hcl ht
          rw [hft] at hsim
          have hno2 : ¬((applyUpdate t
              { author := some row.author, isaccepted := none,
                acceptedtaxon := none }).isaccepted = true ∧
              row.isAccepted ≠ "Yes") := by
            rintro ⟨ha1, ha2⟩
            rw [applyUpdate_isaccepted] at ha1
            exact hsy ⟨ha1, ha2⟩
          have h3 := goc_species_found_nosyn ti
            (update_resource_taxon st t
              { author := some row.author, isaccepted := none,
                acceptedtaxon := none }).1 row parent _ hsim hno2
          rw [h1, h2, h3]
          unfold update_author
          have haux : (applyUpdate t
              { author := some row.author, isaccepted := none,
                acceptedtaxon := none }).author = some row.author := rfl
          rw [if_pos haux, ← hres]
  · have h1 := goc_found_nonspecies ti st row rank parent t hsp ht
    refine ⟨by rw [h1], fun _ => by rw [h1], ?_⟩
    rw [h1]
    exact h1

/-- C5.  An existing accepted Species-rank record of a row that is a
synonym in the CSV is synonymized: the record `get_or_create_taxon`
returns has the same id, `isaccepted` false and `acceptedtaxon` equal to
the uri `get_accepted` produced (which is a real uri).  Synonymizing and
author updates happen only at the Species rank: at the other ranks a
found record is returned with the store untouched, and no
`update_resource` call is ever issued. -/
theorem species_synonymize_and_rank_restriction (ti : TreeInfo) (st : St)
    (row : Row) (parent t : Taxon) (hnd : idsNodup st)
    (ht : get_taxon st (row.field RankName.Species)
      (ti.defItems RankName.Species).id (some parent.name) = some t)
    (hacc : t.isaccepted = true) (hrow : row.isAccepted ≠ "Yes") :
    ((get_or_create_taxon ti st row RankName.Species parent).2.id = t.id ∧
     (get_or_create_taxon ti st row RankName.Species parent).2.isaccepted
       = false ∧
     (get_or_create_taxon ti st row RankName.Species parent).2.acceptedtaxon
       = (get_accepted ti st row).2 ∧
     (∃ u, (get_accepted ti st row).2 = some u)) ∧
    (∀ rank, rank ≠ RankName.Species → ∀ parent' t',
      get_taxon st (row.field rank) (ti.defItems rank).id
        (some parent'.name) = some t' →
      get_or_create_taxon ti st row rank parent' = (st, t')) ∧
    (∀ rank, rank ≠ RankName.Species → ∀ parent' : Taxon,
      countUpdates
        (get_or_create_taxon ti st row rank parent').1.trace =
        countUpdates st.trace) := by
  obtain ⟨f, c, -, hres, hid, hia, hat, -⟩ :=
    species_syn_path ti st row parent t hnd ht hacc hrow
  refine ⟨⟨?_, ?_, ?_, get_accepted_some ti st row hrow⟩, ?_, ?_⟩
  · rw [hres]
    exact hid
  · rw [hres]
    exact hia
  · rw [hres]
    exact hat
  · intro rank hrank parent' t' ht'
    exact goc_found_nonspecies ti st row rank parent' t' hrank ht'
  · intro rank hrank parent'
    cases hfind : get_taxon st (row.field rank) (ti.defItems rank).id
        (some parent'.name) with
    | some t' =>
      rw [goc_found_nonspecies ti st row rank parent' t' hrank hfind]
    | none =>
      rw [goc_notfound_nonspecies ti st row rank parent' hrank hfind,
        create_resource_trace, countUpdates_append,
        countUpdates_single_create, Nat.add_zero]

/-- C8.  Processing a row never turns a stored synonym back into an
accepted taxon: if every stored record with id `i` (a real id, below the
backend's id counter) has `isaccepted` false, then after `proccess_row`
every record with id `i` still has `isaccepted` false — the importer only
ever moves `isaccepted` from true to false. -/
theorem proccess_row_never_reaccepts (ti : TreeInfo) (st : St) (row : Row)
    (i : Nat) (hi : i < st.nextId)
    (hall : ∀ r ∈ st.taxa, r.id = i → r.isaccepted = false) :
    ∀ r' ∈ (proccess_row ti st row).1.taxa, r'.id = i →
      r'.isaccepted = false := by
  obtain ⟨f, c, hp, hk, hc, -⟩ := simw_proccess_row ti st row
  intro r' hr' hid
  rw [hp] at hr'
  rcases List.mem_append.mp hr' with hr' | hr'
  · obtain ⟨x, hx, rfl⟩ := List.mem_map.mp hr'
    have hxid : x.id = i := by
      rw [← (hk x).1]
      exact hid
    have hxfalse : x.isaccepted = false := hall x hx hxid
    cases hfx : (f x).isaccepted with
    | false => rfl
    | true =>
      rw [(hk x).2.2.2.2.2 hfx] at hxfalse
      cases hxfalse
  · have := hc r' hr'
    rw [hid] at this
    exact absurd hi (not_lt_of_le this)

/-- C2.  `proccess_row` walks exactly the four ranks in the fixed order
Order, Family, Genus, Species, starting with Mammalia as the parent of
the Order node, each rank's fetched-or-created taxon becoming the parent
passed to the next rank, and returns the id of the Species-rank
taxon. -/
theorem proccess_row_rank_chain (ti : TreeInfo) (st : St) (row : Row) :
    proccess_row ti st row =
      (let s1 := get_or_create_taxon ti st row RankName.Order ti.mammalia
       let s2 := get_or_create_taxon ti s1.1 row RankName.Family s1.2
       let s3 := get_or_create_taxon ti s2.1 row RankName.Genus s2.2
       let s4 := get_or_create_taxon ti s3.1 row RankName.Species s3.2
       (s4.1, s4.2.id)) := rfl

/-- C4 counterexample.  The claim that every Taxon payload this code
creates satisfies the accepted-or-synonym invariant fails for the
Order-rank create of a concrete row against a store holding only
Mammalia: the created Order payload has `isaccepted` false and
`acceptedtaxon` None, so it is neither accepted nor does it point at an
accepted taxon. -/
theorem create_payload_invariant_counterexample :
    tracePayloadsOk
      (get_or_create_taxon ti0 stC4 rowC1 RankName.Order mam).1.trace
      = false := by rfl

/-- C4 (amended).  Classification of every mutating call
`get_or_create_taxon` issues: at the Species rank every created payload
(the species itself and the accepted taxa `get_accepted` creates)
satisfies the accepted-or-synonym invariant; at the Order, Family and
Genus ranks the created payload instead has `isaccepted` false and
`acceptedtaxon` None, violating it; and every update either leaves
`isaccepted` alone (author updates) or synonymizes, setting `isaccepted`
false together with a single accepted uri. -/
theorem get_or_create_taxon_payload_classification (ti : TreeInfo)
    (st : St) (row : Row) (rank : RankName) (parent : Taxon) :
    ∀ c ∈ (get_or_create_taxon ti st row rank parent).1.trace,
      c ∈ st.trace ∨ goodCall rank c := by
  intro c hc
  by_cases hsp : rank = RankName.Species
  · subst hsp
    cases hfind : get_taxon st (row.field RankName.Species)
        (ti.defItems RankName.Species).id (some parent.name) with
    | some taxon =>
      by_cases hsy : taxon.isaccepted = true ∧ row.isAccepted ≠ "Yes"
      · rw [goc_species_found_syn ti st row parent taxon hfind hsy.1
          hsy.2] at hc
        rcases goodCalls_update_author _ _ _ RankName.Species c hc with
          hc | hgood
        · exact goodCalls_synonymize ti st row taxon hsy.2 c hc
        · exact Or.inr hgood
      · rw [goc_species_found_nosyn ti st row parent taxon hfind hsy] at hc
        exact goodCalls_update_author st taxon row.author RankName.Species
          c hc
    | none =>
      rw [goc_notfound_species ti st row parent hfind,
        create_resource_trace] at hc
      rcases mem_append_single hc with hc | rfl
      · exact goodCalls_get_accepted ti st row c hc
      · refine Or.inr ?_
        show payloadOk _
        by_cases hy : row.isAccepted = "Yes"
        · refine Or.inl ⟨by simp [hy], ?_⟩
          show (get_accepted ti st row).2 = none
          rw [get_accepted_none_of_yes ti st row hy]
        · refine Or.inr ⟨by simp [hy], ?_⟩
          show (get_accepted ti st row).2 ≠ none
          obtain ⟨u, hu⟩ := get_accepted_some ti st row hy
          rw [hu]
          exact Option.some_ne_none u
  · cases hfind : get_taxon st (row.field rank) (ti.defItems rank).id
        (some parent.name) with
    | some taxon =>
      rw [goc_found_nonspecies ti st row rank parent taxon hsp hfind] at hc
      exact Or.inl hc
    | none =>
      rw [goc_notfound_nonspecies ti st row rank parent hsp hfind,
        create_resource_trace] at hc
      rcases mem_append_single hc with hc | rfl
      · exact Or.inl hc
      · refine Or.inr ?_
        show (if rank = RankName.Species then _ else _ : Prop)
        rw [if_neg hsp]
        exact ⟨by simp [hsp], rfl⟩

/-- C3.  `get_accepted` returns None exactly when the row's `isAccepted`
field is `Yes`.  Otherwise it returns the `resource_uri` of a
Species-rank taxon: the existing record named `AcceptedSpecies` under
`AcceptedGenus` when one exists — whose stored author then equals
`AcceptedAuthor` — and a freshly created accepted Species record when it
does not, placed under the `AcceptedGenus` taxon, which is itself
created when absent. -/
theorem get_accepted_branches (ti : TreeInfo) (st : St) (row : Row)
    (hnd : idsNodup st) :
    ((get_accepted ti st row).2 = none ↔ row.isAccepted = "Yes") ∧
    (row.isAccepted ≠ "Yes" →
      (∀ a, get_taxon st row.acceptedSpecies
          (ti.defItems RankName.Species).id (some row.acceptedGenus) =
          some a →
        (get_accepted ti st row).2 = some a.resource_uri ∧
        ∀ r' ∈ (get_accepted ti st row).1.taxa, r'.id = a.id →
          r'.author = some row.acceptedAuthor) ∧
      (get_taxon st row.acceptedSpecies
          (ti.defItems RankName.Species).id (some row.acceptedGenus) =
          none →
        ∃ newSp ∈ (get_accepted ti st row).1.taxa,
          (get_accepted ti st row).2 = some newSp.resource_uri ∧
          newSp.name = row.acceptedSpecies ∧
          newSp.defItemId = (ti.defItems RankName.Species).id ∧
          newSp.isaccepted = true ∧
          newSp.author = some row.acceptedAuthor ∧
          (∀ g, get_taxon st row.acceptedGenus
              (ti.defItems RankName.Genus).id none = some g →
            newSp.parent = some g.resource_uri) ∧
          (get_taxon st row.acceptedGenus
              (ti.defItems RankName.Genus).id none = none →
            ∃ newG ∈ (get_accepted ti st row).1.taxa,
              newG.name = row.acceptedGenus ∧
              newG.defItemId = (ti.defItems RankName.Genus).id ∧
              newG.isaccepted = true ∧
              newSp.parent = some newG.resource_uri))) := by
  constructor
  · constructor
    · intro h
      by_contra hy
      obtain ⟨u, hu⟩ := get_accepted_some ti st row hy
      rw [h] at hu
      cases hu
    · intro hy
      rw [get_accepted_none_of_yes ti st row hy]
  · intro hy
    constructor
    · intro a ha
      have hga : get_accepted ti st row =
          ((update_author st a row.acceptedAuthor).1,
           some (update_author st a row.acceptedAuthor).2.resource_uri) := by
        unfold get_accepted
        rw [if_neg hy, ha]
      constructor
      · rw [hga]
        by_cases he : a.author = some row.acceptedAuthor
        · unfold update_author
          rw [if_pos he]
        · unfold update_author
          rw [if_neg he]
          have hrec : recordAt st a.id = some a :=
            find?_id_of_nodup hnd (get_taxon_mem ha)
          rw [update_resource_taxon_snd, hrec]
          rfl
      · intro r' hr' hid
        rw [hga] at hr'
        by_cases he : a.author = some row.acceptedAuthor
        · unfold update_author at hr'
          rw [if_pos he] at hr'
          rw [mem_id_unique hnd hr' (get_taxon_mem ha) hid]
          exact he
        · unfold update_author at hr'
          rw [if_neg he, update_resource_taxon_taxa] at hr'
          obtain ⟨x, hx, rfl⟩ := List.mem_map.mp hr'
          by_cases hxa : (x.id == a.id) = true
          · rw [if_pos hxa]
            rfl
          · rw [if_pos ?_]
            · rfl
            · rw [if_neg hxa] at hid
              simpa using hid
    · intro hnone
      cases hgen : get_taxon st row.acceptedGenus
          (ti.defItems RankName.Genus).id none with
      | some g =>
        have hga : get_accepted ti st row =
            ((create_accepted_taxon ti st (ti.defItems RankName.Species)
                row.acceptedSpecies (some g)
                (some row.acceptedAuthor)).1,
             some (create_accepted_taxon ti st
                (ti.defItems RankName.Species) row.acceptedSpecies
                (some g) (some row.acceptedAuthor)).2.resource_uri) := by
          unfold get_accepted
          rw [if_neg hy, hnone, hgen]
        rw [hga]
        refine ⟨(create_accepted_taxon ti st (ti.defItems RankName.Species)
            row.acceptedSpecies (some g) (some row.acceptedAuthor)).2,
          ?_, rfl, rfl, rfl, rfl, rfl, ?_, ?_⟩
        · show _ ∈ st.taxa ++ [_]
          exact List.mem_append.mpr (Or.inr (List.mem_singleton.mpr rfl))
        · intro g' hg'
          cases Option.some.inj hg'
          rfl
        · intro hcon
          exact Option.noConfusion hcon
      | none =>
        have hga : get_accepted ti st row =
            ((create_accepted_taxon ti
                (create_accepted_taxon ti st (ti.defItems RankName.Genus)
                  row.acceptedGenus
                  (get_taxon st "Uploaded" (ti.defItems RankName.Family).id
                    (some "Uploaded")) none).1
                (ti.defItems RankName.Species) row.acceptedSpecies
                (some (create_accepted_taxon ti st
                  (ti.defItems RankName.Genus) row.acceptedGenus
                  (get_taxon st "Uploaded" (ti.defItems RankName.Family).id
                    (some "Uploaded")) none).2)
                (some row.acceptedAuthor)).1,
             some (create_accepted_taxon ti
                (create_accepted_taxon ti st (ti.defItems RankName.Genus)
                  row.acceptedGenus
                  (get_taxon st "Uploaded" (ti.defItems RankName.Family).id
                    (some "Uploaded")) none).1
                (ti.defItems RankName.Species) row.acceptedSpecies
                (some (create_accepted_taxon ti st
                  (ti.defItems RankName.Genus) row.acceptedGenus
                  (get_taxon st "Uploaded" (ti.defItems RankName.Family).id
                    (some "Uploaded")) none).2)
                (some row.acceptedAuthor)).2.resource_uri) := by
          unfold get_accepted
          rw [if_neg hy, hnone, hgen]
        rw [hga]
        refine ⟨_, ?_, rfl, rfl, rfl, rfl, rfl, ?_, ?_⟩
        · show _ ∈ (st.taxa ++ [_]) ++ [_]
          exact List.mem_append.mpr (Or.inr (List.mem_singleton.mpr rfl))
        · intro g' hg'
          exact Option.noConfusion hg'
        · intro _
          refine ⟨(create_accepted_taxon ti st (ti.defItems RankName.Genus)
              row.acceptedGenus
              (get_taxon st "Uploaded" (ti.defItems RankName.Family).id
                (some "Uploaded")) none).2, ?_, rfl, rfl, rfl, rfl⟩
          show _ ∈ (st.taxa ++ [_]) ++ [_]
          exact List.mem_append.mpr
            (Or.inl (List.mem_append.mpr
              (Or.inr (List.mem_singleton.mpr rfl))))

/-- C6.  The four error conditions of the session layer: `login` raises
`InvalidCredentials` exactly when the login response status is 403;
`fetch_resource`, `fetch_collection` and `create_resource` raise
`NoPermission` exactly when their response status is 403;
`update_resource` (whose preliminary fetch succeeded) raises
`VersionMismatch` exactly when the PUT response status is 409; and
`send_request` raises `InvalidMethod` exactly when the session has no
callable attribute for the lowercased method name. -/
theorem session_error_conditions :
    (∀ r : HttpResponse,
      isInvalidCredentials (login_check r) = true ↔ r.status = 403) ∧
    (∀ r : HttpResponse,
      isNoPermission (fetch_resource_check r) = true ↔ r.status = 403) ∧
    (∀ r : HttpResponse,
      isNoPermission (fetch_collection_check r) = true ↔ r.status = 403) ∧
    (∀ r : HttpResponse,
      isNoPermission (create_resource_check r) = true ↔ r.status = 403) ∧
    (∀ getResp putResp : HttpResponse, getResp.status = 200 →
      (isVersionMismatch (update_resource_checks getResp putResp) = true ↔
        putResp.status = 409)) ∧
    (∀ (methods : String → Option (String → HttpResponse)) (m e : String),
      isInvalidMethod (send_request methods m e) = true ↔
        methods m.toLower = none) := by
  refine ⟨?_, ?_, ?_, ?_, ?_, ?_⟩
  · intro r
    by_cases h3 : r.status = 403
    · simp [login_check, isInvalidCredentials, h3]
    · by_cases h4 : r.status = 400 <;>
        simp [login_check, isInvalidCredentials, h3, h4]
  · intro r
    by_cases h3 : r.status = 403
    · simp [fetch_resource_check, isNoPermission, h3]
    · by_cases h2 : r.status = 200 <;>
        simp [fetch_resource_check, isNoPermission, h3, h2]
  · intro r
    by_cases h3 : r.status = 403
    · simp [fetch_collection_check, isNoPermission, h3]
    · by_cases h2 : r.status = 200 <;>
        simp [fetch_collection_check, isNoPermission, h3, h2]
  · intro r
    by_cases h3 : r.status = 403
    · simp [create_resource_check, isNoPermission, h3]
    · by_cases h2 : r.status = 201 <;>
        simp [create_resource_check, isNoPermission, h3, h2]
  · intro getResp putResp hg
    have hfetch : fetch_resource_check getResp = Except.ok getResp.content := by
      simp [fetch_resource_check, hg]
    by_cases h4 : putResp.status = 400
    · simp [update_resource_checks, hfetch, isVersionMismatch, h4]
    · by_cases h9 : putResp.status = 409
      · simp [update_resource_checks, hfetch, isVersionMismatch, h4, h9]
      · by_cases h2 : putResp.status = 200 <;>
          simp [update_resource_checks, hfetch, isVersionMismatch, h4,
            h9, h2]
  · intro methods m e
    cases hm : methods m.toLower <;>
      simp [send_request, isInvalidMethod, hm]

/-- C6 witness: a 403 login response raises `InvalidCredentials`, and a
409 PUT response after a successful fetch raises `VersionMismatch`. -/
theorem session_error_conditions_witness :
    isInvalidCredentials (login_check { status := 403, content := "x" })
      = true ∧
    isVersionMismatch (update_resource_checks
      { status := 200, content := "a" } { status := 409, content := "b" })
      = true :=
  ⟨(session_error_conditions.1 { status := 403, content := "x" }).mpr rfl,
   ((session_error_conditions.2.2.2.2.1 { status := 200, content := "a" }
      { status := 409, content := "b" }) rfl).mpr rfl⟩

/-- C7.  Lookups use only the first element of the first page: against a
backend serving pages of any size of at least one, `get_taxon` and
`get_defitem` compute the same answer as against the full collection —
the first matching record, `None` (respectively the raised exception)
when there is no match. -/
theorem first_page_lookup_spec (limit : Nat) (hl : 1 ≤ limit) :
    (∀ st n d pn, get_taxon_paged limit st n d pn = get_taxon st n d pn) ∧
    (∀ st n d pn, matchingTaxa st n d pn = [] →
      get_taxon st n d pn = none) ∧
    (∀ st n d pn t ts, matchingTaxa st n d pn = t :: ts →
      get_taxon st n d pn = some t) ∧
    (∀ items tid rn,
      get_defitem_paged limit items tid rn = get_defitem items tid rn) ∧
    (∀ items tid rn, matchingDefItems items tid rn = [] →
      ∃ msg, get_defitem items tid rn = Except.error msg) ∧
    (∀ items tid rn x xs, matchingDefItems items tid rn = x :: xs →
      get_defitem items tid rn = Except.ok x) := by
  obtain ⟨k, rfl⟩ : ∃ k, limit = k + 1 :=
    ⟨limit - 1, (Nat.succ_pred_eq_of_pos hl).symm⟩
  refine ⟨?_, ?_, ?_, ?_, ?_, ?_⟩
  · intro st n d pn
    unfold get_taxon_paged get_taxon
    cases matchingTaxa st n d pn <;> simp
  · intro st n d pn h
    unfold get_taxon
    rw [h]
    rfl
  · intro st n d pn t ts h
    unfold get_taxon
    rw [h]
    rfl
  · intro items tid rn
    unfold get_defitem_paged get_defitem
    cases matchingDefItems items tid rn <;> simp
  · intro items tid rn h
    unfold get_defitem
    rw [h]
    exact ⟨_, rfl⟩
  · intro items tid rn x xs h
    unfold get_defitem
    rw [h]

/-- C7 witness: with page size one, the taxon lookup over the sample
store agrees with the unpaged lookup. -/
theorem first_page_lookup_spec_witness :
    1 ≤ 1 ∧
    get_taxon_paged 1 stC1 "Sp" 6 (some "Gac") =
      get_taxon stC1 "Sp" 6 (some "Gac") :=
  ⟨Nat.le_refl 1,
   (first_page_lookup_spec 1 (Nat.le_refl 1)).1 stC1 "Sp" 6 (some "Gac")⟩

/-!
## Dictionary-merge lemmas for the `update_resource` frame property
-/

theorem dictLookup_append {α : Type} (k : String)
    (l₁ l₂ : List (String × α)) :
    dictLookup k (l₁ ++ l₂) =
      match dictLookup k l₁ with
      | some v => some v
      | none => dictLookup k l₂ := by
  induction l₁ with
  | nil => simp [dictLookup]
  | cons kv tl ih =>
    rw [List.cons_append]
    by_cases hk : (k == kv.1) = true
    · simp [dictLookup, hk]
    · simp [dictLookup, hk, ih]

theorem dictLookup_map_upd {α : Type} (updated : List (String × α))
    (k : String) (h : dictLookup k updated = none)
    (current : List (String × α)) :
    dictLookup k (current.map fun kv =>
      match dictLookup kv.1 updated with
      | some v => (kv.1, v)
      | none => kv) = dictLookup k current := by
  induction current with
  | nil => rfl
  | cons kv tl ih =>
    rw [List.map_cons]
    by_cases hk : (k == kv.1) = true
    · have hk' : k = kv.1 := by simpa using hk
      have hnone : dictLookup kv.1 updated = none := by
        rw [← hk']
        exact h
      rw [hnone]
      simp [dictLookup, hk]
    · cases hm : dictLookup kv.1 updated with
      | some v => simp [dictLookup, hk, ih]
      | none => simp [dictLookup, hk, ih]

theorem dictLookup_filter_none {α : Type} (k : String)
    (q : String × α → Bool) (l : List (String × α))
    (h : dictLookup k l = none) : dictLookup k (l.filter q) = none := by
  induction l with
  | nil => rfl
  | cons kv tl ih =>
    by_cases hk : (k == kv.1) = true
    · simp [dictLookup, hk] at h
    · have htl : dictLookup k tl = none := by
        simpa [dictLookup, hk] using h
      rw [List.filter_cons]
      by_cases hq : q kv = true
      · simp [hq, dictLookup, hk, ih htl]
      · simp [hq, ih htl]

/-- C9.  `update_resource` preserves every field its `updated` dictionary
does not name: it fetches the full current record, merges only the keys
of `updated` into it, and PUTs the merged record — so a key absent from
the update dictionary is transmitted with exactly its currently stored
value. -/
theorem update_resource_preserves_unnamed_fields (α : Type)
    (store : Nat → List (String × α)) (rid : Nat)
    (updated : List (String × α)) (k : String)
    (h : dictLookup k updated = none) :
    dictLookup k (update_resource_body store rid updated) =
      dictLookup k (store rid) := by
  unfold update_resource_body dictUpdate
  rw [dictLookup_append, dictLookup_map_upd updated k h (store rid)]
  cases hc : dictLookup k (store rid) with
  | some v => rfl
  | none => exact dictLookup_filter_none k _ updated h

/-- C9 witness: merging `{b: 9}` into the record `{a: 1, b: 2}` of
resource 7 leaves field `a` at its stored value. -/
theorem update_resource_preserves_unnamed_fields_witness :
    dictLookup "a" [("b", "9")] = (none : Option String) ∧
    dictLookup "a" (update_resource_body
        (fun _ => [("a", "1"), ("b", "2")]) 7 [("b", "9")]) =
      dictLookup "a" [("a", "1"), ("b", "2")] :=
  ⟨rfl, update_resource_preserves_unnamed_fields String
    (fun _ => [("a", "1"), ("b", "2")]) 7 [("b", "9")] "a" rfl⟩

/-- C10.  `update_author` is a no-op when the author already matches —
same state, same record, no API call — and applying it twice with the
same author performs at most one update: after the first application the
record's author equals the given author, so the second application is
the identity. -/
theorem update_author_noop_idempotent (st : St) (t : Taxon) (a : String) :
    (t.author = some a → update_author st t a = (st, t)) ∧
    update_author (update_author st t a).1 (update_author st t a).2 a =
      update_author st t a ∧
    countUpdates (update_author st t a).1.trace ≤
      countUpdates st.trace + 1 := by
  refine ⟨?_, ?_, ?_⟩
  · intro h
    unfold update_author
    rw [if_pos h]
  · by_cases h : t.author = some a
    · have h1 : update_author st t a = (st, t) := by
        unfold update_author
        rw [if_pos h]
      rw [h1]
      exact h1
    · have h1 : update_author st t a = update_resource_taxon st t
          { author := some a, isaccepted := none,
            acceptedtaxon := none } := by
        unfold update_author
        rw [if_neg h]
      rw [h1]
      have h2 : (update_resource_taxon st t
          { author := some a, isaccepted := none,
            acceptedtaxon := none }).2.author = some a := rfl
      unfold update_author
      rw [if_pos h2]
  · by_cases h : t.author = some a
    · unfold update_author
      rw [if_pos h]
      exact Nat.le_succ_of_le (Nat.le_refl _)
    · unfold update_author
      rw [if_neg h, update_resource_taxon_trace, countUpdates_append,
        countUpdates_single_update]

/-- C10 witness: the stored synonym's author already is `Au`, so
`update_author` returns state and record unchanged. -/
theorem update_author_noop_idempotent_witness :
    synS.author = some "Au" ∧
    update_author stC8 synS "Au" = (stC8, synS) :=
  ⟨rfl, (update_author_noop_idempotent stC8 synS "Au").1 rfl⟩

/-- C1 counterexample.  The claim that fetching an existing record
issues no `create_resource` call fails on a concrete input: the species
`Sp` exists (accepted) under `Gac`, the row synonymizes it, and the
accepted species `SpAcc` does not exist yet — so `get_or_create_taxon`
issues one `create_resource` call (for `SpAcc`) even though the row's
own taxon was found. -/
theorem get_or_create_taxon_existing_creates_counterexample :
    get_taxon stC1 (rowC1.field RankName.Species)
      (ti0.defItems RankName.Species).id (some gac.name) = some spS ∧
    countCreates
      (get_or_create_taxon ti0 stC1 rowC1 RankName.Species gac).1.trace
      = 1 :=
  ⟨rfl, rfl⟩

/-- C1 witness: the concrete existing order `Ord` under Mammalia is
fetched idempotently, without creates, and a second run is the
identity. -/
theorem get_or_create_taxon_existing_idempotent_amended_witness :
    idsNodup stW1 ∧ closedParents stW1 = true ∧
    get_taxon stW1 (rowW1.field RankName.Order)
      (ti0.defItems RankName.Order).id (some mam.name) = some ordA ∧
    ((get_or_create_taxon ti0 stW1 rowW1 RankName.Order mam).2.id =
        ordA.id ∧
      (¬(RankName.Order = RankName.Species ∧ ordA.isaccepted = true ∧
          rowW1.isAccepted ≠ "Yes") →
        countCreates
          (get_or_create_taxon ti0 stW1 rowW1 RankName.Order mam).1.trace
          = countCreates stW1.trace) ∧
      get_or_create_taxon ti0
        (get_or_create_taxon ti0 stW1 rowW1 RankName.Order mam).1 rowW1
        RankName.Order mam =
        get_or_create_taxon ti0 stW1 rowW1 RankName.Order mam) :=
  ⟨by decide, by decide, rfl,
   get_or_create_taxon_existing_idempotent_amended ti0 stW1 rowW1
     RankName.Order mam ordA (by decide) (by decide) rfl⟩

/-- C4 witness: the synonymize update issued for the concrete species
`Sp` is classified as a good call (it sets `isaccepted` false together
with a single accepted uri). -/
theorem get_or_create_taxon_payload_classification_witness :
    ApiCall.update 3
      { author := none, isaccepted := some false,
        acceptedtaxon := some (some "/api/specify/taxon/20/") } ∈
      (get_or_create_taxon ti0 stC1 rowC1 RankName.Species gac).1.trace ∧
    (ApiCall.update 3
      { author := none, isaccepted := some false,
        acceptedtaxon := some (some "/api/specify/taxon/20/") } ∈
      stC1.trace ∨
     goodCall RankName.Species (ApiCall.update 3
      { author := none, isaccepted := some false,
        acceptedtaxon := some (some "/api/specify/taxon/20/") })) :=
  ⟨List.mem_of_elem_eq_true (by rfl),
   get_or_create_taxon_payload_classification ti0 stC1 rowC1
     RankName.Species gac _ (List.mem_of_elem_eq_true (by rfl))⟩

/-- C5 witness: the concrete accepted species `Sp` of a synonym row is
synonymized in place. -/
theorem species_synonymize_and_rank_restriction_witness :
    idsNodup stC1 ∧
    get_taxon stC1 (rowC1.field RankName.Species)
      (ti0.defItems RankName.Species).id (some gac.name) = some spS ∧
    spS.isaccepted = true ∧ rowC1.isAccepted ≠ "Yes" ∧
    (get_or_create_taxon ti0 stC1 rowC1 RankName.Species gac).2.isaccepted
      = false :=
  ⟨by decide, rfl, rfl, by decide,
   ((species_synonymize_and_rank_restriction ti0 stC1 rowC1 gac spS
     (by decide) rfl rfl (by decide)).1).2.1⟩

/-- C8 witness: the stored synonym `Syn` (id 5) stays a synonym across a
full `proccess_row` run of a row that lists it as accepted. -/
theorem proccess_row_never_reaccepts_witness :
    5 < stC8.nextId ∧
    (∀ r ∈ stC8.taxa, r.id = 5 → r.isaccepted = false) ∧
    (∀ r' ∈ (proccess_row ti0 stC8 rowC8).1.taxa, r'.id = 5 →
      r'.isaccepted = false) :=
  ⟨by decide, by decide,
   proccess_row_never_reaccepts ti0 stC8 rowC8 5 (by decide) (by decide)⟩

/-- C3 witness: on the concrete synonym row, `get_accepted` returns a
uri (not None), matching the iff at a row whose `isAccepted` is not
`Yes`. -/
theorem get_accepted_branches_witness :
    idsNodup stC1 ∧
    ((get_accepted ti0 stC1 rowC1).2 = none ↔
      rowC1.isAccepted = "Yes") :=
  ⟨by decide, (get_accepted_branches ti0 stC1 rowC1 (by decide)).1⟩

end SpDemo
